import Mathlib

/-!
Verification of the DocSync resilience and consistency engine.

This file shallowly embeds the parse pipeline of `src/services/gemini.ts`
(`cleanJson`, `repairAndParseJson`, `resilientParse`, `fallbackRaw`,
`generateDocumentation`, `translateDocumentation`, `verifyCodeExample`) and the
cache/store logic of the App component (`processFile`, `handleFileSelect`,
`handleVerify`, `handleTranslate`, `handleApplyFix`), and proves the stated
properties about them.

JavaScript values flowing out of `JSON.parse` are modelled by the inductive
type `Json`, which also carries an `undef` constructor so that the result of
reading an absent object property can be represented.  JavaScript property
access on `null`/`undefined` raises a TypeError; in this embedding `jsGet`
returns `undef` there instead (every call site in the repository either
guards with a truthiness test or optional chaining, or would crash).
Strings are compared character-wise (Lean `Char`); the repository only ever
manipulates them by code unit in ways that agree with this on the inputs of
interest.  All definitions are fuel-based or structural so they evaluate
under `decide`/`rfl`.
-/

set_option maxRecDepth 8192

namespace DocSync

/-- Model of a JavaScript value as produced by `JSON.parse` and by the
repository's object literals.  `undef` models JavaScript `undefined`
(including an absent property); `num` keeps the numeric lexeme verbatim,
which is enough because the repository never does arithmetic on parsed
numbers, only truthiness tests and strict comparisons against strings. -/
inductive Json where
  | undef : Json
  | null : Json
  | bool (b : Bool) : Json
  | num (lexeme : String) : Json
  | str (s : String) : Json
  | arr (elems : List Json) : Json
  | obj (fields : List (String × Json)) : Json

/-- Whitespace skipped by `JSON.parse` (exactly space, tab, LF, CR). -/
def isJsonWs (c : Char) : Bool :=
  c = ' ' || c = '\t' || c = '\n' || c = '\r'

/-- Whitespace for JavaScript `String.prototype.trim` and the `\s` regex
class; the repository's inputs only contain ASCII whitespace, modelled here
(plus NBSP and the BOM, which `trim` also strips). -/
def isJsWs (c : Char) : Bool :=
  c = ' ' || c = '\t' || c = '\n' || c = '\r' || c = '\x0b' || c = '\x0c'
    || c = '\u00A0' || c = '\uFEFF'

def skipWs (cs : List Char) : List Char := cs.dropWhile isJsonWs

/-- JavaScript `trim` on a character list. -/
def jsTrimList (cs : List Char) : List Char :=
  ((cs.dropWhile isJsWs).reverse.dropWhile isJsWs).reverse

/-- JavaScript `String.prototype.trim`. -/
def jsTrim (s : String) : String := String.mk (jsTrimList s.data)

/-- `pre.isPrefixOf cs` driven matching: consume a literal, or fail. -/
def stripLit (lit cs : List Char) : Option (List Char) :=
  if lit.isPrefixOf cs then some (cs.drop lit.length) else none

/-- String body of a JSON string literal, after the opening quote.  Returns
the decoded characters and the remainder after the closing quote.  Rejects
raw control characters and bad escapes exactly as `JSON.parse` does.  A
`\uXXXX` escape outside the valid scalar range decodes to `'\0'` (the
repository never feeds surrogate escapes to the parser). -/
def hexVal (c : Char) : Option Nat :=
  if '0' ≤ c ∧ c ≤ '9' then some (c.toNat - '0'.toNat)
  else if 'a' ≤ c ∧ c ≤ 'f' then some (c.toNat - 'a'.toNat + 10)
  else if 'A' ≤ c ∧ c ≤ 'F' then some (c.toNat - 'A'.toNat + 10)
  else none

def parseStringBody (acc : List Char) : List Char → Option (List Char × List Char)
  | [] => none
  | c :: rest =>
    if c = '\"' then some (acc.reverse, rest)
    else if c = '\\' then
      match rest with
      | [] => none
      | e :: rest2 =>
        if e = '\"' then parseStringBody ('\"' :: acc) rest2
        else if e = '\\' then parseStringBody ('\\' :: acc) rest2
        else if e = '/' then parseStringBody ('/' :: acc) rest2
        else if e = 'b' then parseStringBody ('\x08' :: acc) rest2
        else if e = 'f' then parseStringBody ('\x0c' :: acc) rest2
        else if e = 'n' then parseStringBody ('\n' :: acc) rest2
        else if e = 'r' then parseStringBody ('\r' :: acc) rest2
        else if e = 't' then parseStringBody ('\t' :: acc) rest2
        else if e = 'u' then
          match rest2 with
          | d1 :: d2 :: d3 :: d4 :: rest3 =>
            match hexVal d1, hexVal d2, hexVal d3, hexVal d4 with
            | some h1, some h2, some h3, some h4 =>
              parseStringBody (Char.ofNat (((h1 * 16 + h2) * 16 + h3) * 16 + h4) :: acc) rest3
            | _, _, _, _ => none
          | _ => none
        else none
    else if c.toNat < 0x20 then none
    else parseStringBody (c :: acc) rest

/-- JSON number grammar: optional minus, integer part (`0` or nonzero-led),
optional fraction, optional exponent.  Returns the lexeme and remainder. -/
def parseNumber (cs : List Char) : Option (String × List Char) :=
  let (neg, cs1) : List Char × List Char :=
    match cs with
    | '-' :: r => (['-'], r)
    | _ => ([], cs)
  let intPart? : Option (List Char × List Char) :=
    match cs1 with
    | '0' :: r => some (['0'], r)
    | c :: _ =>
      if c.isDigit ∧ c ≠ '0' then
        some (cs1.takeWhile Char.isDigit, cs1.dropWhile Char.isDigit)
      else none
    | [] => none
  match intPart? with
  | none => none
  | some (ip, rest1) =>
    let (fr, rest2) : List Char × List Char :=
      match rest1 with
      | '.' :: r =>
        if (r.takeWhile Char.isDigit).length > 0 then
          ('.' :: r.takeWhile Char.isDigit, r.dropWhile Char.isDigit)
        else ([], rest1)
      | _ => ([], rest1)
    -- a dot not followed by a digit makes the whole literal invalid in JSON;
    -- detect that case: fr is empty while rest2 still starts with '.'
    match rest2 with
    | '.' :: _ => if fr = [] then none else some (String.mk (neg ++ ip ++ fr), rest2)
    | _ =>
      let (ex, rest3) : List Char × List Char :=
        match rest2 with
        | e :: r =>
          if e = 'e' ∨ e = 'E' then
            match r with
            | s :: r2 =>
              if s = '+' ∨ s = '-' then
                if (r2.takeWhile Char.isDigit).length > 0 then
                  (e :: s :: r2.takeWhile Char.isDigit, r2.dropWhile Char.isDigit)
                else ([], rest2)
              else if s.isDigit then
                (e :: r.takeWhile Char.isDigit, r.dropWhile Char.isDigit)
              else ([], rest2)
            | [] => ([], rest2)
          else ([], rest2)
        | [] => ([], rest2)
      some (String.mk (neg ++ ip ++ fr ++ ex), rest3)

mutual

/-- Fuel-based recursive-descent JSON value parser (model of `JSON.parse`).
The fuel decreases on every nested call; callers pass `length + 1`, which is
enough because at least one character is consumed between calls. -/
def parseVal : Nat → List Char → Option (Json × List Char)
  | 0, _ => none
  | fuel + 1, cs =>
    match skipWs cs with
    | [] => none
    | c :: rest =>
      if c = 'n' then
        (stripLit ['u', 'l', 'l'] rest).map (fun r => (Json.null, r))
      else if c = 't' then
        (stripLit ['r', 'u', 'e'] rest).map (fun r => (Json.bool true, r))
      else if c = 'f' then
        (stripLit ['a', 'l', 's', 'e'] rest).map (fun r => (Json.bool false, r))
      else if c = '\"' then
        (parseStringBody [] rest).map (fun (s, r) => (Json.str (String.mk s), r))
      else if c = '\x7b' then
        match skipWs rest with
        | '\x7d' :: r => some (Json.obj [], r)
        | cs2 => parseMembers fuel cs2 []
      else if c = '[' then
        match skipWs rest with
        | ']' :: r => some (Json.arr [], r)
        | cs2 => parseElems fuel cs2 []
      else if c = '-' ∨ c.isDigit then
        (parseNumber (c :: rest)).map (fun (lex, r) => (Json.num lex, r))
      else none

/-- Members of a JSON object after the opening brace (nonempty case). -/
def parseMembers : Nat → List Char → List (String × Json) → Option (Json × List Char)
  | 0, _, _ => none
  | fuel + 1, cs, acc =>
    match cs with
    | '\"' :: rest =>
      match parseStringBody [] rest with
      | none => none
      | some (key, cs1) =>
        match skipWs cs1 with
        | ':' :: cs2 =>
          match parseVal fuel cs2 with
          | none => none
          | some (v, cs3) =>
            match skipWs cs3 with
            | ',' :: cs4 => parseMembers fuel (skipWs cs4) (acc ++ [(String.mk key, v)])
            | '\x7d' :: cs4 => some (Json.obj (acc ++ [(String.mk key, v)]), cs4)
            | _ => none
        | _ => none
    | _ => none

/-- Elements of a JSON array after the opening bracket (nonempty case). -/
def parseElems : Nat → List Char → List Json → Option (Json × List Char)
  | 0, _, _ => none
  | fuel + 1, cs, acc =>
    match parseVal fuel cs with
    | none => none
    | some (v, cs1) =>
      match skipWs cs1 with
      | ',' :: cs2 => parseElems fuel cs2 (acc ++ [v])
      | ']' :: cs2 => some (Json.arr (acc ++ [v]), cs2)
      | _ => none

end

/-- Model of a successful `JSON.parse(s)`: the parsed value, or `none` when
`JSON.parse` would throw (the repository always catches that throw). -/
def jsonParse (s : String) : Option Json :=
  match parseVal (s.data.length + 1) s.data with
  | some (v, rest) => if skipWs rest = [] then some v else none
  | none => none

/-! ## JavaScript object semantics -/

/-- Own enumerable properties contributed by spreading a value into an object
literal: an object contributes its fields (later assignments win, captured by
`jsGet` reading the last binding), a string or array contributes indexed
properties, and primitives contribute nothing. -/
def spreadFields : Json → List (String × Json)
  | Json.obj fields => fields
  | Json.str s => s.data.mapIdx (fun i c => (Nat.repr i, Json.str (String.mk [c])))
  | Json.arr xs => xs.mapIdx (fun i v => (Nat.repr i, v))
  | _ => []

/-- Last-binding-wins association lookup: the value of property `k` of an
object whose fields were assigned in list order. -/
def lastLookup (fields : List (String × Json)) (k : String) : Json :=
  fields.foldl (fun acc kv => if kv.1 == k then kv.2 else acc) Json.undef

/-- JavaScript property read `v[k]` (for the non-numeric keys the repository
uses).  Absent property and present-but-undefined both give `undef`; reading
from `null`/`undefined` (a TypeError in JavaScript) also gives `undef`, see
the header comment. -/
def jsGet (v : Json) (k : String) : Json := lastLookup (spreadFields v) k

/-- JavaScript truthiness of a value. -/
def numLexZero (lex : String) : Bool :=
  let cs := match lex.data with
    | '-' :: r => r
    | l => l
  ((cs.takeWhile (fun c => c ≠ 'e' ∧ c ≠ 'E')).filter Char.isDigit).all (· = '0')

def truthy : Json → Bool
  | Json.undef => false
  | Json.null => false
  | Json.bool b => b
  | Json.num lex => ! numLexZero lex
  | Json.str s => s ≠ ""
  | Json.arr _ => true
  | Json.obj _ => true

/-- JavaScript strict equality `v === s` against a string literal. -/
def jsEqStr (v : Json) (s : String) : Bool :=
  match v with
  | Json.str t => t == s
  | _ => false

/-- JavaScript `key.startsWith(pre)`. -/
def jsStartsWith (s pre : String) : Bool := pre.data.isPrefixOf s.data

/-- JavaScript `s.split(sep)` for a single-character separator. -/
def splitOnChar (sep : Char) : List Char → List (List Char)
  | [] => [[]]
  | c :: cs =>
    match splitOnChar sep cs with
    | [] => [[]]
    | r :: rs => if c = sep then [] :: r :: rs else (c :: r) :: rs

/-- Left-to-right, non-overlapping global replacement (the semantics of
JavaScript `replace` with a global literal pattern), fuel-based so that it
evaluates in the kernel. -/
def replaceAllFrom (pat rep : List Char) : Nat → List Char → List Char
  | 0, cs => cs
  | _ + 1, [] => []
  | fuel + 1, c :: cs =>
    if pat.isPrefixOf (c :: cs) ∧ pat ≠ [] then
      rep ++ replaceAllFrom pat rep fuel (List.drop (pat.length - 1) cs)
    else
      c :: replaceAllFrom pat rep fuel cs

def replaceAllCh (pat rep cs : List Char) : List Char := replaceAllFrom pat rep cs.length cs

/-! ## The regex fragments used by `resilientParse` -/

/-- Match the regex fragment `"key"\s*:\s*"` at the head of `cs`; on success
return the remainder just after the opening quote of the value. -/
def matchKeyAt (key cs : List Char) : Option (List Char) :=
  match stripLit ('\"' :: key ++ ['\"']) cs with
  | none => none
  | some cs1 =>
    match cs1.dropWhile isJsWs with
    | ':' :: cs3 =>
      match cs3.dropWhile isJsWs with
      | '\"' :: cs5 => some cs5
      | _ => none
    | _ => none

/-- The capture of `((?:[^"\\]|\\.)*)` followed by a closing quote: a maximal
run of escape pairs and plain characters, kept verbatim (no unescaping),
ending at an unescaped quote; fails at end of input. -/
def scanCapture (acc : List Char) : List Char → Option (List Char)
  | [] => none
  | c :: rest =>
    if c = '\"' then some acc.reverse
    else if c = '\\' then
      match rest with
      | [] => none
      | e :: rest2 => scanCapture (e :: '\\' :: acc) rest2
    else scanCapture (c :: acc) rest

/-- First match of `/"key"\s*:\s*"((?:[^"\\]|\\.)*)"/` in `cs`, returning the
raw capture.  Mirrors the regex engine: starting positions are tried left to
right, and a position whose capture has no closing quote is abandoned. -/
def findKeyCapture (key : List Char) : List Char → Option (List Char)
  | [] => none
  | c :: rest =>
    match matchKeyAt key (c :: rest) with
    | some cs5 =>
      match scanCapture [] cs5 with
      | some cap => some cap
      | none => findKeyCapture key rest
    | none => findKeyCapture key rest

/-- `text.split(/"title"\s*:\s*"/)`: successive chunks between matches. -/
def splitTitleGo (key : List Char) : Nat → List Char → List Char → List (List Char)
  | 0, acc, cs => [acc.reverse ++ cs]
  | fuel + 1, acc, cs =>
    match cs with
    | [] => [acc.reverse]
    | c :: rest =>
      match matchKeyAt key (c :: rest) with
      | some cs5 => acc.reverse :: splitTitleGo key fuel [] cs5
      | none => splitTitleGo key fuel (c :: acc) rest

def splitOnTitle (cs : List Char) : List (List Char) :=
  splitTitleGo ['t', 'i', 't', 'l', 'e'] cs.length [] cs

/-! ## `src/services/gemini.ts` -/

/-- `cleanJson`: `text.match(/\{[\s\S]*\}/)` takes the substring from the
first opening brace to the last closing brace when that span is nonempty,
else falls back to `text.trim()`. -/
def cleanJson (text : String) : String :=
  let cs := text.data
  match cs.findIdx? (fun c => c = '\x7b'), (cs.reverse.findIdx? (fun c => c = '\x7d')) with
  | some i, some jr =>
    let j := cs.length - 1 - jr
    if i < j then String.mk ((cs.drop i).take (j - i + 1)) else jsTrim text
  | _, _ => jsTrim text

/-- `repairAndParseJson`: strict parse; on failure trim, drop one trailing
comma at the very end of the string, balance quotes/brackets/braces by
appending closers, and parse once more.  `none` models the `null` that the
source returns when the repaired parse also fails. -/
def repairAndParseJson (jsonString : String) : Option Json :=
  match jsonParse jsonString with
  | some v => some v
  | none =>
    let r0 := jsTrimList jsonString.data
    let r1 := if r0.getLast? = some ',' then r0.dropLast else r0
    let openBraces := r1.count '\x7b'
    let closeBraces := r1.count '\x7d'
    let openBrackets := r1.count '['
    let closeBrackets := r1.count ']'
    let quotes := r1.count '\"'
    let r2 := if quotes % 2 ≠ 0 then r1 ++ ['\"'] else r1
    let r3 := r2 ++ List.replicate (openBrackets - closeBrackets) ']'
    let r4 := r3 ++ List.replicate (openBraces - closeBraces) '\x7d'
    jsonParse (String.mk r4)

/-- One candidate section scavenged from a chunk produced by splitting on
`"title": "`: the title runs to the next quote (the chunk is skipped when no
quote follows), the content and code example are captured by the
`"content"`/`"codeExample"` regexes, and only the code example is unescaped
(`\n` and `\"`). -/
def sectionOfPart (part : List Char) : Option Json :=
  if part.contains '\"' then
    let title := part.takeWhile (fun c => c ≠ '\"')
    let content := (findKeyCapture ['c', 'o', 'n', 't', 'e', 'n', 't'] part).getD
      "Content missing".data
    let code := (findKeyCapture
      ['c', 'o', 'd', 'e', 'E', 'x', 'a', 'm', 'p', 'l', 'e'] part).map
      (fun c => replaceAllCh ['\\', '\"'] ['\"'] (replaceAllCh ['\\', 'n'] ['\n'] c))
    some (Json.obj
      [("title", Json.str (String.mk title)),
       ("content", Json.str (String.mk content)),
       ("codeExample", match code with
        | some c => Json.str (String.mk c)
        | none => Json.undef)])
  else none

/-- `resilientParse`: regex scavenging over the raw generator text.  Returns
`none` (the source's `null`) when no section is recovered. -/
def resilientParse (text fileName : String) : Option Json :=
  let tl := text.data
  let summary := (findKeyCapture ['s', 'u', 'm', 'm', 'a', 'r', 'y'] tl).getD
    "Analysis completed".data
  let parts := splitOnTitle tl
  match (parts.drop 1).filterMap sectionOfPart with
  | [] => none
  | sections => some (Json.obj
    [("filePath", Json.str fileName),
     ("summary", Json.str (String.mk summary)),
     ("sections", Json.arr sections)])

/-- `fallbackRaw`: strip braces and quotes and the literal `summary:`, trim,
truncate to 1000 characters with an ellipsis, and wrap as one section. -/
def fallbackRaw (text fileName : String) : Json :=
  let step1 := text.data.filter (fun c => ¬ (c = '\x7b' ∨ c = '\"' ∨ c = '\x7d'))
  let step2 := replaceAllCh ['s', 'u', 'm', 'm', 'a', 'r', 'y', ':'] [] step1
  let cleanText := jsTrimList step2
  let content := String.mk (cleanText.take 1000) ++
    (if 1000 < cleanText.length then "..." else "")
  Json.obj
    [("filePath", Json.str fileName),
     ("summary", Json.str "Raw Analysis Output (JSON Parse Failed)"),
     ("sections", Json.arr
       [Json.obj
         [("title", Json.str "Analysis"),
          ("content", Json.str content),
          ("codeExample", Json.str "// Code example unavailable due to formatting error")]])]

/-- Quality tier of a parse pipeline result (spec §4.1). -/
inductive QualityTier where
  | Strict : QualityTier
  | Recovered : QualityTier
  | RawFallback : QualityTier
deriving DecidableEq

/-- `{...parsed, sections: Array.isArray(parsed.sections) ? parsed.sections
: [], language: 'en'}` — the Strict-tier result object. -/
def docResultStrict (parsed : Json) : Json :=
  Json.obj (spreadFields parsed ++
    [("sections", match jsGet parsed "sections" with
      | Json.arr xs => Json.arr xs
      | _ => Json.arr []),
     ("language", Json.str "en")])

/-- `{...doc, language: 'en'}` for the Recovered and RawFallback results. -/
def withLang (doc : Json) : Json :=
  Json.obj (spreadFields doc ++ [("language", Json.str "en")])

/-- The three-strategy parse pipeline of `generateDocumentation` applied to a
nonempty `response.text` (lines 229-253 of `gemini.ts`), together with the
tier of the strategy that produced the result.  The Strict strategy is taken
only when `repairAndParseJson` returns a truthy value (the source tests
`if (parsed)`). -/
def generateDocFromText (text fileName : String) : Json × QualityTier :=
  let fallbackResult :=
    match resilientParse text fileName with
    | some recovered => (withLang recovered, QualityTier.Recovered)
    | none => (withLang (fallbackRaw text fileName), QualityTier.RawFallback)
  match repairAndParseJson (cleanJson text) with
  | some parsed =>
    if truthy parsed then (docResultStrict parsed, QualityTier.Strict) else fallbackResult
  | none => fallbackResult

/-- Minified-code detection: some line longer than 1000 characters. -/
def isMinified (fileContent : String) : Bool :=
  (splitOnChar '\n' fileContent.data).any (fun line => 1000 < line.length)

/-- The fixed Document returned when the minified-code detection fires. -/
def skippedDoc (fileName : String) : Json :=
  Json.obj
    [("filePath", Json.str fileName),
     ("summary", Json.str "Skipped: File appears to be minified or generated code."),
     ("sections", Json.arr
       [Json.obj
         [("title", Json.str "Analysis Skipped"),
          ("content", Json.str "This file contains extremely long lines (1000+ chars), suggesting it is minified or machine-generated."),
          ("codeExample", Json.str "// No example available")]]),
     ("language", Json.str "en")]

/-- The fixed Document returned when the generator yields no text. -/
def blockedDoc (fileName : String) : Json :=
  Json.obj
    [("filePath", Json.str fileName),
     ("summary", Json.str "Analysis Blocked: AI returned no content."),
     ("sections", Json.arr
       [Json.obj
         [("title", Json.str "Safety/Filter Block"),
          ("content", Json.str "The AI model refused to generate content for this file."),
          ("codeExample", Json.str "// No content generated")]]),
     ("language", Json.str "en")]

/-- The fixed Document returned when the generator call throws. -/
def serviceErrorDoc (fileName : String) : Json :=
  Json.obj
    [("filePath", Json.str fileName),
     ("summary", Json.str "Service Error: Unable to contact AI."),
     ("sections", Json.arr
       [Json.obj
         [("title", Json.str "API Error"),
          ("content", Json.str "Failed to connect to the Gemini API."),
          ("codeExample", Json.str "")]]),
     ("language", Json.str "en")]

/-- Outcome of one call to an external collaborator (content source, LLM
generator, verification oracle, or translator): it either throws with an
optional error message, or returns a text (empty text models a falsy
`response.text`). -/
inductive CallOutcome where
  | threw (msg : Option String) : CallOutcome
  | returned (text : String) : CallOutcome

/-- `generateDocumentation`, with the external LLM call abstracted as a
`CallOutcome`.  The minified check precedes the call; a thrown call gives the
service-error Document; falsy `response.text` gives the blocked Document;
otherwise the three-strategy pipeline runs.  This function is total: it never
throws for any input string. -/
def generateDocumentation (fileName fileContent : String) (outcome : CallOutcome) : Json :=
  if isMinified fileContent then skippedDoc fileName
  else
    match outcome with
    | CallOutcome.threw _ => serviceErrorDoc fileName
    | CallOutcome.returned text =>
      if text = "" then blockedDoc fileName
      else (generateDocFromText text fileName).1

/-- `VerificationStatus` from `types.ts`. -/
inductive VerificationStatus where
  | IDLE : VerificationStatus
  | PENDING : VerificationStatus
  | SUCCESS : VerificationStatus
  | FAILED : VerificationStatus
deriving DecidableEq

/-- `VerificationResult` from `types.ts`.  `logs` and `fixedCode` hold the
raw JavaScript values assigned by `verifyCodeExample` (which copies fields
straight out of parsed JSON), so they are modelled as `Json`. -/
structure VerificationResult where
  status : VerificationStatus
  logs : Json
  fixedCode : Json

/-- The response-handling branch of `verifyCodeExample` (lines 408-423): a
plain `JSON.parse` on the cleaned text — no repair, no scavenging — and on
any parse failure (including `data.status` access throwing on a parsed
`null`) an ordinary FAILED verdict with a fixed log message. -/
def verifyParseResponse (text : String) : VerificationResult :=
  match jsonParse (cleanJson text) with
  | some Json.null =>
    { status := VerificationStatus.FAILED,
      logs := Json.str "Verification failed: Invalid JSON response from AI.",
      fixedCode := Json.undef }
  | some data =>
    { status := if jsEqStr (jsGet data "status") "SUCCESS" then
        VerificationStatus.SUCCESS else VerificationStatus.FAILED,
      logs := jsGet data "logs",
      fixedCode := jsGet data "fixedCode" }
  | none =>
    { status := VerificationStatus.FAILED,
      logs := Json.str "Verification failed: Invalid JSON response from AI.",
      fixedCode := Json.undef }

/-- `verifyCodeExample` with the oracle call abstracted as a `CallOutcome`. -/
def verifyCodeExample (outcome : CallOutcome) : VerificationResult :=
  match outcome with
  | CallOutcome.returned text =>
    if text = "" then
      { status := VerificationStatus.FAILED,
        logs := Json.str "Verification process failed to return a valid response.",
        fixedCode := Json.undef }
    else verifyParseResponse text
  | CallOutcome.threw m =>
    { status := VerificationStatus.FAILED,
      logs := Json.str ("System Error: " ++
        (match m with
         | some s => if s = "" then "Unknown error during verification" else s
         | none => "Unknown error during verification")),
      fixedCode := Json.undef }

/-! ## The App component: document store and translation cache

The App component (the repository's root React component) keeps two
`Record<string, GeneratedDoc>` states: `docState` (canonical base-language
documents keyed by file path) and `translationCache` (translated documents
keyed by `path + ":" + langCode`).  Records are modelled as association
lists with an upsert that keeps at most one binding per key.  `GeneratedDoc`
models the fields of `types.ts` (`filePath`, `summary`, `sections`,
`language`, `sourceSha`, `verification`, `lastUpdated`); the document-shaped
fields hold the raw JavaScript values that flow in from the parse pipeline,
so they are `Json`. -/

structure GeneratedDoc where
  filePath : Json
  summary : Json
  sections : List Json
  language : Json
  sourceSha : String
  verification : VerificationResult
  lastUpdated : String

/-- Record lookup (`record[key]`, `undefined` as `none`). -/
def lookupRec {α : Type} (m : List (String × α)) (k : String) : Option α :=
  (m.find? (fun kv => kv.1 == k)).map (fun kv => kv.2)

/-- Record update `{...record, [key]: v}`. -/
def upsertRec {α : Type} (m : List (String × α)) (k : String) (v : α) : List (String × α) :=
  (k, v) :: m.filter (fun kv => kv.1 != k)

/-- Deleting every key that starts with `path + ":"` (the overlay-eviction
loop used by `processFile` and `handleApplyFix`). -/
def evictPath {α : Type} (m : List (String × α)) (path : String) : List (String × α) :=
  m.filter (fun kv => ! jsStartsWith kv.1 (path ++ ":"))

/-- The App component state relevant to the claims. -/
structure AppState where
  docState : List (String × GeneratedDoc)
  translationCache : List (String × GeneratedDoc)

def emptyAppState : AppState := { docState := [], translationCache := [] }

/-- `processFile` builds the stored document from the generated one:
`{...generated, sourceSha: file.sha, verification: {status: IDLE, logs: ''},
lastUpdated: ...}`.  Every branch of `generateDocumentation` returns a
Document whose `sections` field is an array, so the array-elements read here
is exact. -/
def assembleDoc (generated : Json) (sha now : String) : GeneratedDoc :=
  { filePath := jsGet generated "filePath",
    summary := jsGet generated "summary",
    sections := match jsGet generated "sections" with
      | Json.arr xs => xs
      | _ => [],
    language := jsGet generated "language",
    sourceSha := sha,
    verification :=
      { status := VerificationStatus.IDLE, logs := Json.str "", fixedCode := Json.undef },
    lastUpdated := now }

/-- `processFile(file)`: fetch the content (a throw is caught and only sets
the error banner, leaving both caches untouched), generate documentation
(total — failures come back as placeholder Documents), store the new
canonical document under the file's path, and evict every translation-cache
entry for that path. -/
def processFile (st : AppState) (name path sha : String)
    (fetch gen : CallOutcome) (now : String) : AppState :=
  match fetch with
  | CallOutcome.threw _ => st
  | CallOutcome.returned content =>
    let newDoc := assembleDoc (generateDocumentation name content gen) sha now
    { docState := upsertRec st.docState path newDoc,
      translationCache := evictPath st.translationCache path }

/-- The regeneration condition checked in `handleFileSelect`
(`!existingDoc || existingDoc.sourceSha !== file.sha`); this is the
staleness predicate `isStale` of spec §4.2. -/
def isStale (st : AppState) (path sha : String) : Bool :=
  match lookupRec st.docState path with
  | none => true
  | some d => d.sourceSha != sha

/-- `handleFileSelect` for a file node: regenerate iff the staleness
condition holds (a directory node only navigates and is not modelled).
Returns the new state and whether a generation was performed. -/
def handleFileSelect (st : AppState) (name path sha : String)
    (fetch gen : CallOutcome) (now : String) : AppState × Bool :=
  if isStale st path sha then (processFile st name path sha fetch gen now, true)
  else (st, false)

/-- The state mutation performed by `handleVerify` once the oracle returned
`result`: replace the canonical document's `verification`, and patch
`verification` on every translation-cache entry whose key starts with
`path + ":"`, leaving everything else in those entries untouched.  (When no
canonical entry exists the source would build a degenerate
`{verification: result}` object from spreading `undefined`; that branch is
unreachable because `handleVerify` returns early unless a document with a
code example is already displayed, and is modelled as a no-op on
`docState`.) -/
def handleVerifyUpdate (st : AppState) (path : String) (result : VerificationResult) : AppState :=
  { docState := match lookupRec st.docState path with
      | some d => upsertRec st.docState path { d with verification := result }
      | none => st.docState,
    translationCache := st.translationCache.map (fun kv =>
      (kv.1, if jsStartsWith kv.1 (path ++ ":") then { kv.2 with verification := result }
        else kv.2)) }

/-- `sections.map((s, idx) => ...)` with the element index. -/
def mapWithIndex {α β : Type} (f : Nat → α → β) : Nat → List α → List β
  | _, [] => []
  | i, a :: as => f i a :: mapWithIndex f (i + 1) as

/-- `parsed.sections?.[idx]` (optional chaining: anything that is not an
array, or an out-of-range index, gives `undefined`). -/
def jsIndexGet (v : Json) (i : Nat) : Json :=
  match v with
  | Json.arr xs => xs.getD i Json.undef
  | _ => Json.undef

/-- JavaScript `a || b`. -/
def jsOr (a b : Json) : Json := if truthy a then a else b

/-- The merge step of `translateDocumentation`: translated `summary`,
per-section translated `title`/`content` with fallback to the original, the
original `codeExample` kept via the object spread, and the target language
recorded. -/
def mergeTranslation (doc : GeneratedDoc) (parsed : Json) (targetLanguage : String) :
    GeneratedDoc :=
  { doc with
    summary := jsGet parsed "summary",
    sections := mapWithIndex (fun idx s =>
      let pSec := jsIndexGet (jsGet parsed "sections") idx
      Json.obj (spreadFields s ++
        [("title", jsOr (jsGet pSec "title") (jsGet s "title")),
         ("content", jsOr (jsGet pSec "content") (jsGet s "content"))])) 0 doc.sections,
    language := Json.str targetLanguage }

/-- `translateDocumentation` with the translator call abstracted: the
document itself is returned when it is already in the target language, when
the call throws, when the response text is falsy, or when
`repairAndParseJson` yields a falsy value (the source throws and catches in
those last two cases). -/
def translateDocumentation (doc : GeneratedDoc) (targetLanguage : String)
    (outcome : CallOutcome) : GeneratedDoc :=
  if jsEqStr doc.language targetLanguage then doc
  else
    match outcome with
    | CallOutcome.threw _ => doc
    | CallOutcome.returned text =>
      if text = "" then doc
      else
        match repairAndParseJson (cleanJson text) with
        | some parsed =>
          if truthy parsed then mergeTranslation doc parsed targetLanguage else doc
        | none => doc

/-- `handleTranslate`: no-op when the path has no canonical document, when
the target language is `en`, or when the cache already holds the overlay;
otherwise translate the canonical document and cache it under
`path + ":" + targetLang`. -/
def handleTranslate (st : AppState) (path targetLang : String)
    (outcome : CallOutcome) : AppState :=
  match lookupRec st.docState path with
  | none => st
  | some baseDoc =>
    if targetLang = "en" then st
    else
      let cacheKey := path ++ ":" ++ targetLang
      if (lookupRec st.translationCache cacheKey).isSome then st
      else
        let translated := translateDocumentation baseDoc targetLang outcome
        { st with translationCache := upsertRec st.translationCache cacheKey translated }

/-- `handleApplyFix`: in the canonical document replace the `codeExample` of
every section whose `codeExample` is truthy, reset the verification record,
and evict every translation-cache entry for the path. -/
def handleApplyFix (st : AppState) (path fixedCode : String) : AppState :=
  match lookupRec st.docState path with
  | none => st
  | some doc =>
    let newSections := doc.sections.map (fun s =>
      if truthy (jsGet s "codeExample") then
        Json.obj (spreadFields s ++ [("codeExample", Json.str fixedCode)])
      else s)
    let updatedDoc := { doc with
      sections := newSections,
      verification :=
        { status := VerificationStatus.IDLE,
          logs := Json.str "Fix applied. Ready for re-verification.",
          fixedCode := Json.undef } }
    { docState := upsertRec st.docState path updatedDoc,
      translationCache := evictPath st.translationCache path }

/-- One user-visible operation on the two caches, for the sequences of
operations quantified over by the invariant claims.  `verify` carries the
record computed by `verifyCodeExample` (any record is allowed, which covers
every reachable one). -/
inductive Op where
  | select (name path sha : String) (fetch gen : CallOutcome) (now : String) : Op
  | translate (path lang : String) (outcome : CallOutcome) : Op
  | verify (path : String) (result : VerificationResult) : Op
  | fix (path code : String) : Op

def Op.path : Op → String
  | Op.select _ p _ _ _ _ => p
  | Op.translate p _ _ => p
  | Op.verify p _ => p
  | Op.fix p _ => p

def step (st : AppState) : Op → AppState
  | Op.select name path sha fetch gen now => (handleFileSelect st name path sha fetch gen now).1
  | Op.translate path lang outcome => handleTranslate st path lang outcome
  | Op.verify path result => handleVerifyUpdate st path result
  | Op.fix path code => handleApplyFix st path code

/-- A path with no colon; the translation-cache key `path + ":" + lang` then
determines its path component uniquely. -/
def noColon (s : String) : Bool := ! s.data.contains ':'

/-- The sections of `t` mirror those of `d` code-example-wise: same count,
and pairwise equal `codeExample` properties (spec §3, OverlayCache entry
invariant). -/
def sectionCodeEq (s s' : Json) : Prop := jsGet s "codeExample" = jsGet s' "codeExample"

def codeMirror (t d : GeneratedDoc) : Prop :=
  List.Forall₂ sectionCodeEq t.sections d.sections

/-- The invariant of claim C8: every translation-cache entry's code examples
mirror the canonical entry's, section by section. -/
def codeMirrorInv (st : AppState) : Prop :=
  ∀ p lang t, noColon p = true →
    lookupRec st.translationCache (p ++ ":" ++ lang) = some t →
    ∃ d, lookupRec st.docState p = some d ∧ codeMirror t d

/-- The list of sections of a pipeline result object (the result's
`sections` property, which every pipeline branch sets to an array). -/
def sectionsOf (doc : Json) : List Json :=
  match jsGet doc "sections" with
  | Json.arr xs => xs
  | _ => []

/-- A concrete stored document and state used by the concrete-input
theorems below. -/
def sampleDoc : GeneratedDoc := assembleDoc (skippedDoc "f") "sha1" "t0"

def sampleState : AppState :=
  { docState := [("p", sampleDoc)], translationCache := [("p:es", sampleDoc)] }

/-! ## Helper lemmas -/

theorem lastLookup_append (xs ys : List (String × Json)) (k : String) :
    lastLookup (xs ++ ys) k =
      ys.foldl (fun acc kv => if kv.1 == k then kv.2 else acc) (lastLookup xs k) := by
  simp [lastLookup, List.foldl_append]

/-- Reading a property that the two appended bindings do not mention falls
through to the spread value. -/
theorem jsGet_spread_append₂ (s : Json) (a b : String) (u v : Json) (k : String)
    (ha : a ≠ k) (hb : b ≠ k) :
    jsGet (Json.obj (spreadFields s ++ [(a, u), (b, v)])) k = jsGet s k := by
  simp [jsGet, spreadFields, lastLookup_append, List.foldl, ha, hb]

/-- Reading the property that the appended binding overrides. -/
theorem jsGet_spread_append₁ (s : Json) (a : String) (u : Json) :
    jsGet (Json.obj (spreadFields s ++ [(a, u)])) a = u := by
  simp [jsGet, spreadFields, lastLookup_append, List.foldl]

theorem lookupRec_upsert_self {α : Type} (m : List (String × α)) (k : String) (v : α) :
    lookupRec (upsertRec m k v) k = some v := by
  simp [lookupRec, upsertRec, List.find?]

theorem lookupRec_cons {α : Type} (kv : String × α) (rest : List (String × α)) (k : String) :
    lookupRec (kv :: rest) k = if kv.1 == k then some kv.2 else lookupRec rest k := by
  cases h : kv.1 == k <;> simp [lookupRec, List.find?, h]

theorem lookupRec_filter_key {α : Type} (m : List (String × α)) (q : String → Bool)
    (k : String) :
    lookupRec (m.filter (fun kv => q kv.1)) k = if q k then lookupRec m k else none := by
  induction m with
  | nil => simp [lookupRec]
  | cons kv rest ih =>
    rw [List.filter_cons]
    by_cases hk : kv.1 = k
    · subst hk
      by_cases hq : q kv.1 = true
      · simp [hq, lookupRec_cons]
      · have hq' : q kv.1 = false := by simpa using hq
        simp [hq', lookupRec_cons, ih]
    · have hbeq : (kv.1 == k) = false := by simp [hk]
      by_cases hq : q kv.1 = true
      · simp [hq, lookupRec_cons, hbeq, ih]
      · have hq' : q kv.1 = false := by simpa using hq
        simp [hq', ih, lookupRec_cons, hbeq]

theorem lookupRec_upsert_ne {α : Type} (m : List (String × α)) (k k' : String) (v : α)
    (h : k' ≠ k) :
    lookupRec (upsertRec m k v) k' = lookupRec m k' := by
  have hbeq : (k == k') = false := by simp [Ne.symm h]
  have : lookupRec (m.filter (fun kv => kv.1 != k)) k' = lookupRec m k' := by
    have := lookupRec_filter_key m (fun s => s != k) k'
    simpa [bne, h] using this
  simpa [lookupRec, upsertRec, List.find?, hbeq] using this

theorem jsStartsWith_append (a b : String) : jsStartsWith (a ++ b) a = true := by
  simp [jsStartsWith, String.data_append, List.isPrefixOf_iff_prefix]

theorem jsStartsWith_key (path lang : String) :
    jsStartsWith (path ++ ":" ++ lang) (path ++ ":") = true :=
  jsStartsWith_append (path ++ ":") lang

theorem lookupRec_evict {α : Type} (m : List (String × α)) (path lang : String) :
    lookupRec (evictPath m path) (path ++ ":" ++ lang) = none := by
  have h := lookupRec_filter_key m (fun s => ! jsStartsWith s (path ++ ":"))
    (path ++ ":" ++ lang)
  simpa [evictPath, jsStartsWith_key] using h

theorem lookupRec_evict_survivor {α : Type} (m : List (String × α)) (path k : String)
    {v : α} (h : lookupRec (evictPath m path) k = some v) :
    jsStartsWith k (path ++ ":") = false ∧ lookupRec m k = some v := by
  have hf := lookupRec_filter_key m (fun s => ! jsStartsWith s (path ++ ":")) k
  rw [evictPath] at h
  rw [hf] at h
  by_cases hq : jsStartsWith k (path ++ ":")
  · simp [hq] at h
  · refine ⟨by simp [hq], ?_⟩
    simpa [hq] using h

theorem lookupRec_map {α : Type} (m : List (String × α)) (g : String → α → α) (k : String) :
    lookupRec (m.map (fun kv => (kv.1, g kv.1 kv.2))) k = (lookupRec m k).map (g k) := by
  induction m with
  | nil => simp [lookupRec]
  | cons kv rest ih =>
    by_cases hk : kv.1 = k
    · subst hk
      simp [lookupRec, List.find?]
    · have hbeq : (kv.1 == k) = false := by simp [hk]
      simp only [lookupRec, List.map, List.find?, hbeq] at *
      exact ih

theorem append_colon_injective (p q l m : List Char) (hp : ':' ∉ p) (hq : ':' ∉ q)
    (h : p ++ ':' :: l = q ++ ':' :: m) : p = q ∧ l = m := by
  induction p generalizing q with
  | nil =>
    cases q with
    | nil => simpa using h
    | cons c q' =>
      simp only [List.nil_append, List.cons_append, List.cons.injEq] at h
      exact absurd (by rw [h.1]; exact List.mem_cons_self c q' : ':' ∈ c :: q') hq
  | cons c p' ih =>
    cases q with
    | nil =>
      simp only [List.cons_append, List.nil_append, List.cons.injEq] at h
      exact absurd (by rw [← h.1]; exact List.mem_cons_self c p' : ':' ∈ c :: p') hp
    | cons d q' =>
      simp only [List.cons_append, List.cons.injEq] at h
      obtain ⟨hcd, hrest⟩ := h
      have hp' : ':' ∉ p' := fun hx => hp (List.mem_cons_of_mem c hx)
      have hq' : ':' ∉ q' := fun hx => hq (List.mem_cons_of_mem d hx)
      obtain ⟨h1, h2⟩ := ih q' hp' hq' hrest
      exact ⟨by rw [hcd, h1], h2⟩

theorem noColon_not_mem {s : String} (h : noColon s = true) : ':' ∉ s.data := by
  simpa [noColon, List.contains] using h

theorem key_eq_split (p q lang lang2 : String) (hp : noColon p = true)
    (hq : noColon q = true) (h : p ++ ":" ++ lang = q ++ ":" ++ lang2) :
    p = q ∧ lang = lang2 := by
  have hd : p.data ++ ':' :: lang.data = q.data ++ ':' :: lang2.data := by
    have := congrArg String.data h
    simpa [String.data_append] using this
  obtain ⟨h1, h2⟩ := append_colon_injective p.data q.data lang.data lang2.data
    (noColon_not_mem hp) (noColon_not_mem hq) hd
  exact ⟨String.ext h1, String.ext h2⟩

theorem startsWith_colon_eq (p q lang : String) (hp : noColon p = true)
    (hq : noColon q = true)
    (h : jsStartsWith (p ++ ":" ++ lang) (q ++ ":") = true) : q = p := by
  rw [jsStartsWith, List.isPrefixOf_iff_prefix] at h
  obtain ⟨t, ht⟩ := h
  have hd : q.data ++ ':' :: t = p.data ++ ':' :: lang.data := by
    have := congrArg String.data (rfl : p ++ ":" ++ lang = p ++ ":" ++ lang)
    have h2 : (q ++ ":").data ++ t = (p ++ ":" ++ lang).data := ht
    simpa [String.data_append] using h2
  exact String.ext (append_colon_injective q.data p.data t lang.data
    (noColon_not_mem hq) (noColon_not_mem hp) hd).1

theorem codeMirror_refl (d : GeneratedDoc) : codeMirror d d := by
  rw [codeMirror]
  induction d.sections with
  | nil => exact List.Forall₂.nil
  | cons s rest ih => exact List.Forall₂.cons rfl ih

theorem codeMirror_of_sections_eq {t t' d d' : GeneratedDoc}
    (ht : t'.sections = t.sections) (hd : d'.sections = d.sections)
    (h : codeMirror t d) : codeMirror t' d' := by
  rw [codeMirror, ht, hd]
  exact h

/-- Each merged section keeps its original `codeExample`: the spread copies
it and only `title`/`content` are overridden. -/
theorem mergeTranslation_section_codeEq (s zt zc : Json) :
    sectionCodeEq (Json.obj (spreadFields s ++ [("title", zt), ("content", zc)])) s :=
  jsGet_spread_append₂ s "title" "content" zt zc "codeExample"
    (by decide) (by decide)

theorem forall₂_mapWithIndex (f : Nat → Json → Json) (l : List Json)
    (h : ∀ i s, sectionCodeEq (f i s) s) (n : Nat) :
    List.Forall₂ sectionCodeEq (mapWithIndex f n l) l := by
  induction l generalizing n with
  | nil => exact List.Forall₂.nil
  | cons s rest ih => exact List.Forall₂.cons (h n s) (ih (n + 1))

theorem codeMirror_merge (doc : GeneratedDoc) (parsed : Json) (lang : String) :
    codeMirror (mergeTranslation doc parsed lang) doc := by
  rw [codeMirror, mergeTranslation]
  exact forall₂_mapWithIndex _ doc.sections
    (fun i s => mergeTranslation_section_codeEq s _ _) 0

theorem codeMirror_translate (doc : GeneratedDoc) (lang : String) (o : CallOutcome) :
    codeMirror (translateDocumentation doc lang o) doc := by
  unfold translateDocumentation
  by_cases h1 : jsEqStr doc.language lang = true
  · simp only [h1, if_true]
    exact codeMirror_refl doc
  · rw [if_neg h1]
    cases o with
    | threw m => exact codeMirror_refl doc
    | returned text =>
      dsimp only
      by_cases h2 : text = ""
      · simp only [h2, if_true]
        exact codeMirror_refl doc
      · rw [if_neg h2]
        cases repairAndParseJson (cleanJson text) with
        | none => exact codeMirror_refl doc
        | some parsed =>
          dsimp only
          by_cases h3 : truthy parsed = true
          · simp only [h3, if_true]
            exact codeMirror_merge doc parsed lang
          · rw [if_neg h3]
            exact codeMirror_refl doc

/-- One `step` preserves the code-mirror invariant, provided the operation's
path contains no colon (so translation-cache keys decompose uniquely). -/
theorem step_preserves_codeMirrorInv (st : AppState) (op : Op)
    (hop : noColon op.path = true) (h : codeMirrorInv st) :
    codeMirrorInv (step st op) := by
  cases op with
  | select name path sha fetch gen now =>
    rw [step, handleFileSelect]
    by_cases hst : isStale st path sha = true
    · simp only [hst, if_true]
      cases fetch with
      | threw m => exact h
      | returned content =>
        intro p lang t hp hlook
        rw [processFile] at hlook
        simp only at hlook
        obtain ⟨hsw, hold⟩ := lookupRec_evict_survivor st.translationCache path _ hlook
        have hne : p ≠ path := by
          intro he
          subst he
          rw [jsStartsWith_key] at hsw
          exact absurd hsw (by decide)
        obtain ⟨d, hd, hm⟩ := h p lang t hp hold
        refine ⟨d, ?_, hm⟩
        rw [processFile]
        simp only
        rw [lookupRec_upsert_ne _ _ _ _ hne]
        exact hd
    · simp only [hst, if_false]
      simpa using h
  | translate path lang2 outcome =>
    rw [step, handleTranslate]
    cases hbase : lookupRec st.docState path with
    | none => exact h
    | some baseDoc =>
      dsimp only
      by_cases hen : lang2 = "en"
      · simp only [hen, if_true]
        exact h
      · rw [if_neg hen]
        by_cases hhit : (lookupRec st.translationCache (path ++ ":" ++ lang2)).isSome = true
        · simp only [hhit, if_true]
          exact h
        · rw [if_neg (by simpa using hhit)]
          intro p lang t hp hlook
          simp only at hlook
          by_cases hkey : p ++ ":" ++ lang = path ++ ":" ++ lang2
          · obtain ⟨hpp, hll⟩ := key_eq_split p path lang lang2 hp hop hkey
            subst hpp
            rw [hkey, lookupRec_upsert_self] at hlook
            cases hlook
            exact ⟨baseDoc, hbase, codeMirror_translate baseDoc lang2 outcome⟩
          · rw [lookupRec_upsert_ne _ _ _ _ hkey] at hlook
            exact h p lang t hp hlook
  | verify path result =>
    rw [step]
    intro p lang t' hp hlook
    rw [handleVerifyUpdate] at hlook
    simp only at hlook
    rw [lookupRec_map st.translationCache
      (fun k v => if jsStartsWith k (path ++ ":") then { v with verification := result }
        else v)] at hlook
    cases hold : lookupRec st.translationCache (p ++ ":" ++ lang) with
    | none => rw [hold] at hlook; cases hlook
    | some t =>
      rw [hold] at hlook
      simp only [Option.map, Option.some.injEq] at hlook
      have hts : t'.sections = t.sections := by
        split at hlook <;> rw [← hlook]
      obtain ⟨d, hd, hm⟩ := h p lang t hp hold
      rw [handleVerifyUpdate]
      simp only
      cases hdoc : lookupRec st.docState path with
      | none =>
        exact ⟨d, hd, codeMirror_of_sections_eq hts rfl hm⟩
      | some d0 =>
        by_cases hpp : p = path
        · subst hpp
          rw [hd] at hdoc
          cases hdoc
          refine ⟨{ d with verification := result }, lookupRec_upsert_self _ _ _, ?_⟩
          exact codeMirror_of_sections_eq hts rfl hm
        · refine ⟨d, ?_, codeMirror_of_sections_eq hts rfl hm⟩
          rw [lookupRec_upsert_ne _ _ _ _ hpp]
          exact hd
  | fix path code =>
    rw [step, handleApplyFix]
    cases hdoc : lookupRec st.docState path with
    | none => exact h
    | some doc =>
      intro p lang t hp hlook
      simp only at hlook
      obtain ⟨hsw, hold⟩ := lookupRec_evict_survivor st.translationCache path _ hlook
      have hne : p ≠ path := by
        intro he
        subst he
        rw [jsStartsWith_key] at hsw
        exact absurd hsw (by decide)
      obtain ⟨d, hd, hm⟩ := h p lang t hp hold
      refine ⟨d, ?_, hm⟩
      simp only
      rw [lookupRec_upsert_ne _ _ _ _ hne]
      exact hd

/-- The invariant holds along any operation sequence from any state
satisfying it. -/
theorem foldl_preserves_codeMirrorInv (ops : List Op) (st : AppState)
    (h : codeMirrorInv st) (hops : ∀ op ∈ ops, noColon op.path = true) :
    codeMirrorInv (ops.foldl step st) := by
  induction ops generalizing st with
  | nil => exact h
  | cons op rest ih =>
    exact ih (step st op)
      (step_preserves_codeMirrorInv st op (hops op (List.mem_cons_self op rest)) h)
      (fun o ho => hops o (List.mem_cons_of_mem op ho))

/-! ## Shape lemmas for the parse-pipeline results -/

theorem jsGet_obj (l : List (String × Json)) (k : String) :
    jsGet (Json.obj l) k = lastLookup l k := rfl

theorem lastLookup_append₂_eval (xs : List (String × Json)) (a b k : String) (u v : Json) :
    lastLookup (xs ++ [(a, u), (b, v)]) k =
      if b == k then v else if a == k then u else lastLookup xs k := by
  rw [lastLookup_append]
  rfl

theorem lastLookup_append₁_eval (xs : List (String × Json)) (a k : String) (u : Json) :
    lastLookup (xs ++ [(a, u)]) k = if a == k then u else lastLookup xs k := by
  rw [lastLookup_append]
  rfl

theorem docResultStrict_sections (p : Json) :
    ∃ xs, jsGet (docResultStrict p) "sections" = Json.arr xs := by
  rw [docResultStrict, jsGet_obj, lastLookup_append₂_eval]
  rw [if_neg (by decide : ¬ ((("language" : String) == "sections") = true))]
  rw [if_pos (by decide : ((("sections" : String) == "sections") = true))]
  cases h : jsGet p "sections" with
  | arr xs => exact ⟨xs, rfl⟩
  | undef => exact ⟨[], rfl⟩
  | null => exact ⟨[], rfl⟩
  | bool b => exact ⟨[], rfl⟩
  | num n => exact ⟨[], rfl⟩
  | str s => exact ⟨[], rfl⟩
  | obj l => exact ⟨[], rfl⟩

theorem docResultStrict_language (p : Json) :
    jsGet (docResultStrict p) "language" = Json.str "en" := by
  rw [docResultStrict, jsGet_obj, lastLookup_append₂_eval]
  rw [if_pos (by decide : ((("language" : String) == "language") = true))]

theorem withLang_get (d : Json) (k : String) (h : ¬ ((("language" : String) == k) = true)) :
    jsGet (withLang d) k = jsGet d k := by
  rw [withLang, jsGet_obj, lastLookup_append₁_eval, if_neg h]
  rfl

theorem withLang_language (d : Json) : jsGet (withLang d) "language" = Json.str "en" := by
  rw [withLang, jsGet_obj, lastLookup_append₁_eval]
  rw [if_pos (by decide : ((("language" : String) == "language") = true))]

theorem sectionOfPart_shape (part : List Char) (sec : Json)
    (h : sectionOfPart part = some sec) :
    ∃ t c z, sec =
      Json.obj [("title", Json.str t), ("content", Json.str c), ("codeExample", z)] := by
  rw [sectionOfPart] at h
  by_cases hc : part.contains '\"' = true
  · rw [if_pos hc] at h
    injection h with h'
    exact ⟨_, _, _, h'.symm⟩
  · rw [if_neg hc] at h
    cases h

theorem resilientParse_shape (text fileName : String) (r : Json)
    (h : resilientParse text fileName = some r) :
    ∃ smry secs,
      r = Json.obj [("filePath", Json.str fileName), ("summary", Json.str smry),
        ("sections", Json.arr secs)] ∧
      ∀ sec ∈ secs, ∃ t c z, sec =
        Json.obj [("title", Json.str t), ("content", Json.str c), ("codeExample", z)] := by
  rw [resilientParse] at h
  cases hm : ((splitOnTitle text.data).drop 1).filterMap sectionOfPart with
  | nil =>
    rw [hm] at h
    cases h
  | cons x rest =>
    rw [hm] at h
    injection h with h'
    refine ⟨_, x :: rest, h'.symm, ?_⟩
    intro sec hs
    have hmem : sec ∈ ((splitOnTitle text.data).drop 1).filterMap sectionOfPart := by
      rw [hm]
      exact hs
    obtain ⟨part, _, hp⟩ := List.mem_filterMap.mp hmem
    exact sectionOfPart_shape part sec hp

/-- Which of the three strategies `generateDocFromText` lands on, and the
result of each. -/
theorem generateDocFromText_cases (text fileName : String) :
    (∃ parsed, repairAndParseJson (cleanJson text) = some parsed ∧ truthy parsed = true ∧
      generateDocFromText text fileName = (docResultStrict parsed, QualityTier.Strict)) ∨
    (∃ recovered, resilientParse text fileName = some recovered ∧
      generateDocFromText text fileName = (withLang recovered, QualityTier.Recovered)) ∨
    (resilientParse text fileName = none ∧
      generateDocFromText text fileName =
        (withLang (fallbackRaw text fileName), QualityTier.RawFallback)) := by
  rw [generateDocFromText]
  cases hrep : repairAndParseJson (cleanJson text) with
  | some parsed =>
    dsimp only
    by_cases ht : truthy parsed = true
    · rw [if_pos ht]
      exact Or.inl ⟨parsed, rfl, ht, rfl⟩
    · rw [if_neg ht]
      cases hres : resilientParse text fileName with
      | some recovered => exact Or.inr (Or.inl ⟨recovered, rfl, rfl⟩)
      | none => exact Or.inr (Or.inr ⟨rfl, rfl⟩)
  | none =>
    dsimp only
    cases hres : resilientParse text fileName with
    | some recovered => exact Or.inr (Or.inl ⟨recovered, rfl, rfl⟩)
    | none => exact Or.inr (Or.inr ⟨rfl, rfl⟩)

/-! ## Claim theorems -/

/-- C1 (counterexample): the claim promises a non-null string summary for
every input, but on the valid JSON input with a null summary the Strict tier
passes the parsed object through unchecked, so the pipeline result's summary
is the JSON null. -/
theorem C1_counterexample :
    (generateDocFromText "\x7b\"summary\":null,\"sections\":[]\x7d" "f").2 =
      QualityTier.Strict ∧
    jsGet (generateDocFromText "\x7b\"summary\":null,\"sections\":[]\x7d" "f").1 "summary" =
      Json.null :=
  ⟨rfl, rfl⟩

/-- C1 (amended): for every input string and fallback name, the parse
pipeline returns (it is a total function, so it never throws) a Document
whose `sections` field is a (possibly empty) array and whose `language` is
"en"; whenever the result does not come from the Strict tier, the summary is
a non-null string and every section has a non-null string title and content.
(The Strict tier passes the parsed JSON through unchecked, so there a null
or absent summary/title/content survives, see the counterexample.) -/
theorem C1_parse_totality_amended (rawText fileName : String) :
    (∃ xs, jsGet (generateDocFromText rawText fileName).1 "sections" = Json.arr xs) ∧
    jsGet (generateDocFromText rawText fileName).1 "language" = Json.str "en" ∧
    ((generateDocFromText rawText fileName).2 ≠ QualityTier.Strict →
      (∃ s, jsGet (generateDocFromText rawText fileName).1 "summary" = Json.str s) ∧
      ∀ sec ∈ sectionsOf (generateDocFromText rawText fileName).1,
        (∃ t, jsGet sec "title" = Json.str t) ∧ (∃ c, jsGet sec "content" = Json.str c)) := by
  rcases generateDocFromText_cases rawText fileName with
    ⟨parsed, hrep, ht, heq⟩ | ⟨recovered, hres, heq⟩ | ⟨hres, heq⟩
  · rw [heq]
    exact ⟨docResultStrict_sections parsed, docResultStrict_language parsed,
      fun htier => absurd rfl htier⟩
  · obtain ⟨smry, secs, hr, hsecs⟩ := resilientParse_shape rawText fileName recovered hres
    subst hr
    rw [heq]
    refine ⟨⟨secs, ?_⟩, withLang_language _, fun _ => ⟨⟨smry, ?_⟩, ?_⟩⟩
    · rw [withLang_get _ _ (by decide)]
      rfl
    · rw [withLang_get _ _ (by decide)]
      rfl
    · intro sec hs
      have hs' : sec ∈ secs := by
        have hsec : sectionsOf (withLang (Json.obj [("filePath", Json.str fileName),
            ("summary", Json.str smry), ("sections", Json.arr secs)])) = secs := by
          rw [sectionsOf, withLang_get _ _ (by decide)]
          rfl
        rw [hsec] at hs
        exact hs
      obtain ⟨t, c, z, hshape⟩ := hsecs sec hs'
      subst hshape
      exact ⟨⟨t, rfl⟩, ⟨c, rfl⟩⟩
  · rw [heq]
    refine ⟨⟨_, (withLang_get _ _ (by decide)).trans rfl⟩, withLang_language _,
      fun _ => ⟨⟨_, (withLang_get _ _ (by decide)).trans rfl⟩, ?_⟩⟩
    intro sec hs
    rw [sectionsOf, withLang_get _ _ (by decide)] at hs
    cases hs with
    | head => exact ⟨⟨_, rfl⟩, ⟨_, rfl⟩⟩
    | tail _ h2 => cases h2

/-- C1 (witness): the amended theorem applied to a pure-prose input, whose
result is not Strict, giving a string summary and an array of sections. -/
theorem C1_witness :
    (∃ s, jsGet (generateDocFromText "plain prose" "f").1 "summary" = Json.str s) ∧
    (∃ xs, jsGet (generateDocFromText "plain prose" "f").1 "sections" = Json.arr xs) := by
  obtain ⟨h1, _, h3⟩ := C1_parse_totality_amended "plain prose" "f"
  exact ⟨(h3 (by decide)).1, h1⟩

/-- C3 (counterexample): on the trailing-comma input the claim promises the
Strict tier, but the bounded repair only drops a comma at the very end of
the string — here the string ends in a brace, the comma before `]` stays,
both parses fail, and the result is not Strict. -/
theorem C3_counterexample :
    (generateDocFromText
      "\x7b\"summary\":\"x\",\"sections\":[\x7b\"title\":\"A\",\"content\":\"B\"\x7d,]\x7d"
      "f").2 ≠ QualityTier.Strict := by
  decide

/-- C3 (amended): the trailing-comma input parses at the Recovered tier (the
regex scavenger), still yielding exactly one section with title "A" and
content "B", and summary "x". -/
theorem C3_trailing_comma_amended :
    (generateDocFromText
      "\x7b\"summary\":\"x\",\"sections\":[\x7b\"title\":\"A\",\"content\":\"B\"\x7d,]\x7d"
      "f").2 = QualityTier.Recovered ∧
    sectionsOf (generateDocFromText
      "\x7b\"summary\":\"x\",\"sections\":[\x7b\"title\":\"A\",\"content\":\"B\"\x7d,]\x7d"
      "f").1 =
      [Json.obj [("title", Json.str "A"), ("content", Json.str "B"),
        ("codeExample", Json.undef)]] ∧
    jsGet (generateDocFromText
      "\x7b\"summary\":\"x\",\"sections\":[\x7b\"title\":\"A\",\"content\":\"B\"\x7d,]\x7d"
      "f").1 "summary" = Json.str "x" :=
  ⟨rfl, rfl, rfl⟩

/-- C9: the scavenging input yields the Recovered tier with one section
titled "Setup" whose content is "Install deps". -/
theorem C9_scavenging :
    (generateDocFromText
      "garbage \"title\": \"Setup\" garbage \"content\": \"Install deps\" garbage"
      "f").2 = QualityTier.Recovered ∧
    ∃ sec ∈ sectionsOf (generateDocFromText
      "garbage \"title\": \"Setup\" garbage \"content\": \"Install deps\" garbage"
      "f").1,
      jsGet sec "title" = Json.str "Setup" ∧ jsGet sec "content" = Json.str "Install deps" :=
  ⟨rfl,
    ⟨Json.obj [("title", Json.str "Setup"), ("content", Json.str "Install deps"),
      ("codeExample", Json.undef)],
     List.mem_cons_self _ _, rfl, rfl⟩⟩

/-- C10: whenever the file content has a line longer than 1000 characters,
`generateDocumentation` returns the fixed skipped Document — independently
of the generator outcome, which is never consulted — with the stated
summary, a single section titled "Analysis Skipped", and language "en". -/
theorem C10_minified_skip (fileName fileContent : String) (outcome : CallOutcome)
    (h : ∃ line ∈ splitOnChar '\n' fileContent.data, 1000 < line.length) :
    generateDocumentation fileName fileContent outcome = skippedDoc fileName ∧
    jsGet (skippedDoc fileName) "summary" =
      Json.str "Skipped: File appears to be minified or generated code." ∧
    (∃ content, sectionsOf (skippedDoc fileName) =
      [Json.obj [("title", Json.str "Analysis Skipped"), ("content", content),
        ("codeExample", Json.str "// No example available")]]) ∧
    jsGet (skippedDoc fileName) "language" = Json.str "en" := by
  have hmin : isMinified fileContent = true := by
    rw [isMinified]
    obtain ⟨line, hmem, hlen⟩ := h
    exact List.any_eq_true.mpr ⟨line, hmem, by simpa using hlen⟩
  refine ⟨?_, rfl, ⟨_, rfl⟩, rfl⟩
  unfold generateDocumentation
  rw [if_pos hmin]

/-- C10 (witness): a content consisting of one 1001-character line triggers
the skip for a concrete file name and generator outcome. -/
theorem C10_witness :
    generateDocumentation "f" (String.mk (List.replicate 1001 'a'))
      (CallOutcome.threw none) = skippedDoc "f" :=
  (C10_minified_skip "f" (String.mk (List.replicate 1001 'a')) (CallOutcome.threw none)
    ⟨List.replicate 1001 'a', by decide, by decide⟩).1

/-- C2 (counterexample): the claim says a generation-service failure leaves
the document store and translation cache untouched, but `processFile` stores
the service-error placeholder Document (replacing the previous entry for the
path) and evicts the path's translation overlays. -/
theorem C2_counterexample :
    (lookupRec (processFile sampleState "f.ts" "p" "sha2" (CallOutcome.returned "x")
      (CallOutcome.threw none) "t1").docState "p").map (fun d => d.summary) =
      some (Json.str "Service Error: Unable to contact AI.") ∧
    (lookupRec sampleState.docState "p").map (fun d => d.summary) =
      some (Json.str "Skipped: File appears to be minified or generated code.") ∧
    lookupRec (processFile sampleState "f.ts" "p" "sha2" (CallOutcome.returned "x")
      (CallOutcome.threw none) "t1").translationCache "p:es" = none ∧
    (lookupRec sampleState.translationCache "p:es").isSome = true :=
  ⟨rfl, rfl, rfl, rfl⟩

/-- C2 (amended): a content-fetch failure is caught in `processFile` and
mutates neither cache; a generation failure of either kind, however, is
converted by `generateDocumentation` into a placeholder Document — the
service-error one for a thrown call, the analysis-blocked one for an
empty/blocked response — which `processFile` stores for the path (with the
new fingerprint) while evicting every translation overlay for that path. -/
theorem C2_error_frame_amended (st : AppState) (name path sha msg now content : String)
    (gen : CallOutcome) :
    processFile st name path sha (CallOutcome.threw (some msg)) gen now = st ∧
    (isMinified content = false →
      (lookupRec (processFile st name path sha (CallOutcome.returned content)
        (CallOutcome.threw none) now).docState path =
        some (assembleDoc (serviceErrorDoc name) sha now) ∧
      ∀ lang, lookupRec (processFile st name path sha (CallOutcome.returned content)
        (CallOutcome.threw none) now).translationCache (path ++ ":" ++ lang) = none) ∧
      lookupRec (processFile st name path sha (CallOutcome.returned content)
        (CallOutcome.returned "") now).docState path =
        some (assembleDoc (blockedDoc name) sha now) ∧
      ∀ lang, lookupRec (processFile st name path sha (CallOutcome.returned content)
        (CallOutcome.returned "") now).translationCache (path ++ ":" ++ lang) = none) := by
  refine ⟨rfl, fun hmin => ⟨⟨?_, fun lang => ?_⟩, ?_, fun lang => ?_⟩⟩
  · have hg : generateDocumentation name content (CallOutcome.threw none) =
        serviceErrorDoc name := by
      unfold generateDocumentation
      rw [if_neg (by simp [hmin])]
    rw [processFile]
    dsimp only
    rw [hg]
    exact lookupRec_upsert_self _ _ _
  · rw [processFile]
    exact lookupRec_evict _ _ _
  · have hg : generateDocumentation name content (CallOutcome.returned "") =
        blockedDoc name := by
      unfold generateDocumentation
      rw [if_neg (by simp [hmin])]
      rfl
    rw [processFile]
    dsimp only
    rw [hg]
    exact lookupRec_upsert_self _ _ _
  · rw [processFile]
    exact lookupRec_evict _ _ _

/-- C2 (witness): the amended theorem at a concrete state — a thrown fetch
leaves the state unchanged, a thrown generation stores the service-error
Document, and an empty generator response stores the analysis-blocked
Document. -/
theorem C2_witness :
    processFile sampleState "f.ts" "p" "sha2" (CallOutcome.threw (some "boom"))
      (CallOutcome.returned "x") "t1" = sampleState ∧
    lookupRec (processFile sampleState "f.ts" "p" "sha2" (CallOutcome.returned "x")
      (CallOutcome.threw none) "t1").docState "p" =
      some (assembleDoc (serviceErrorDoc "f.ts") "sha2" "t1") ∧
    lookupRec (processFile sampleState "f.ts" "p" "sha2" (CallOutcome.returned "x")
      (CallOutcome.returned "") "t1").docState "p" =
      some (assembleDoc (blockedDoc "f.ts") "sha2" "t1") := by
  have h := C2_error_frame_amended sampleState "f.ts" "p" "sha2" "boom" "t1" "x"
    (CallOutcome.returned "x")
  exact ⟨h.1, (h.2 rfl).1.1, (h.2 rfl).2.1⟩

/-- C4 (counterexample): on a truncated-but-repairable oracle response the
claim promises the Strict-tier repair (which here would parse to a SUCCESS
record), but `verifyCodeExample` uses a plain `JSON.parse` and turns the
parse failure into an ordinary FAILED verdict, which `handleVerify` then
stores in the caches like any other verdict. -/
theorem C4_counterexample :
    verifyParseResponse "\x7b\"status\":\"SUCCESS\",\"logs\":\"ok\"" =
      { status := VerificationStatus.FAILED,
        logs := Json.str "Verification failed: Invalid JSON response from AI.",
        fixedCode := Json.undef } ∧
    repairAndParseJson (cleanJson "\x7b\"status\":\"SUCCESS\",\"logs\":\"ok\"") =
      some (Json.obj [("status", Json.str "SUCCESS"), ("logs", Json.str "ok")]) ∧
    (lookupRec (handleVerifyUpdate sampleState "p"
      (verifyParseResponse "\x7b\"status\":\"SUCCESS\",\"logs\":\"ok\"")).translationCache
      "p:es").map (fun t => t.verification.status) = some VerificationStatus.FAILED ∧
    (lookupRec sampleState.translationCache "p:es").map (fun t => t.verification.status) =
      some VerificationStatus.IDLE :=
  ⟨rfl, rfl, rfl, rfl⟩

/-- C4 (amended): when the oracle's output is malformed, `verifyCodeExample`
applies only the `cleanJson` extraction followed by a plain strict
`JSON.parse` — no repair and no scavenging or raw tiers — and on failure
returns an ordinary VerificationResult with status FAILED and the fixed
invalid-JSON log message; `handleVerify` stores whatever record it receives
into the canonical entry (there is no separate ServiceError/MalformedResult
error kind). -/
theorem C4_verify_strictness_amended :
    (∀ text : String,
      (jsonParse (cleanJson text) = none ∨ jsonParse (cleanJson text) = some Json.null) →
      verifyParseResponse text =
        { status := VerificationStatus.FAILED,
          logs := Json.str "Verification failed: Invalid JSON response from AI.",
          fixedCode := Json.undef }) ∧
    (∀ (st : AppState) (path : String) (d : GeneratedDoc) (r : VerificationResult),
      lookupRec st.docState path = some d →
      lookupRec (handleVerifyUpdate st path r).docState path =
        some { d with verification := r }) := by
  constructor
  · intro text h
    unfold verifyParseResponse
    rcases h with h | h <;> rw [h]
  · intro st path d r hd
    rw [handleVerifyUpdate]
    dsimp only
    rw [hd]
    exact lookupRec_upsert_self _ _ _

/-- C4 (witness): the amended theorem applied to a concrete non-JSON oracle
response. -/
theorem C4_witness :
    verifyParseResponse "oops not json" =
      { status := VerificationStatus.FAILED,
        logs := Json.str "Verification failed: Invalid JSON response from AI.",
        fixedCode := Json.undef } :=
  C4_verify_strictness_amended.1 "oops not json" (Or.inl rfl)

theorem applyFix_section_pair (fixedCode : String) (s : Json) :
    (∀ c : String, jsGet s "codeExample" = Json.str c → c ≠ "" →
      jsGet (if truthy (jsGet s "codeExample") then
        Json.obj (spreadFields s ++ [("codeExample", Json.str fixedCode)]) else s)
        "codeExample" = Json.str fixedCode) ∧
    (jsGet s "codeExample" = Json.undef →
      (if truthy (jsGet s "codeExample") then
        Json.obj (spreadFields s ++ [("codeExample", Json.str fixedCode)]) else s) = s) := by
  constructor
  · intro c hc hne
    have ht : truthy (jsGet s "codeExample") = true := by
      rw [hc]
      simpa [truthy] using hne
    rw [if_pos ht]
    exact jsGet_spread_append₁ s "codeExample" (Json.str fixedCode)
  · intro hu
    rw [hu]
    rfl

theorem applyFix_sections_forall (fixedCode : String) (secs : List Json) :
    List.Forall₂ (fun s s' =>
      (∀ c : String, jsGet s "codeExample" = Json.str c → c ≠ "" →
        jsGet s' "codeExample" = Json.str fixedCode) ∧
      (jsGet s "codeExample" = Json.undef → s' = s))
      secs (secs.map (fun s => if truthy (jsGet s "codeExample") then
        Json.obj (spreadFields s ++ [("codeExample", Json.str fixedCode)]) else s)) := by
  induction secs with
  | nil => exact List.Forall₂.nil
  | cons s rest ih => exact List.Forall₂.cons (applyFix_section_pair fixedCode s) ih

/-- C5: after `handleApplyFix` on a path with an existing canonical
document, the stored document's verification record is reset to the Idle
record with the fix-applied log message and no fixed code; section by
section, a section whose code example was a non-empty string now carries
`fixedCode` as its code example, and a section without a code example is
unchanged; and every translation-cache entry for the path, in every
language, is evicted. -/
theorem C5_apply_fix (st : AppState) (path fixedCode : String) (doc : GeneratedDoc)
    (h : lookupRec st.docState path = some doc) :
    ∃ doc', lookupRec (handleApplyFix st path fixedCode).docState path = some doc' ∧
      doc'.verification =
        { status := VerificationStatus.IDLE,
          logs := Json.str "Fix applied. Ready for re-verification.",
          fixedCode := Json.undef } ∧
      List.Forall₂ (fun s s' =>
        (∀ c : String, jsGet s "codeExample" = Json.str c → c ≠ "" →
          jsGet s' "codeExample" = Json.str fixedCode) ∧
        (jsGet s "codeExample" = Json.undef → s' = s)) doc.sections doc'.sections ∧
      ∀ lang, lookupRec (handleApplyFix st path fixedCode).translationCache
        (path ++ ":" ++ lang) = none := by
  unfold handleApplyFix
  rw [h]
  dsimp only
  exact ⟨_, lookupRec_upsert_self _ _ _, rfl,
    applyFix_sections_forall fixedCode doc.sections,
    fun lang => lookupRec_evict _ _ _⟩

/-- C5 (witness): the theorem at a concrete state holding a document for
path "p" and a translation overlay for "p:es". -/
theorem C5_witness :
    (∀ lang, lookupRec (handleApplyFix sampleState "p" "new code").translationCache
      ("p" ++ ":" ++ lang) = none) ∧
    ∃ doc', lookupRec (handleApplyFix sampleState "p" "new code").docState "p" = some doc' ∧
      doc'.verification =
        { status := VerificationStatus.IDLE,
          logs := Json.str "Fix applied. Ready for re-verification.",
          fixedCode := Json.undef } := by
  obtain ⟨doc', h1, h2, _, h4⟩ := C5_apply_fix sampleState "p" "new code" sampleDoc rfl
  exact ⟨h4, doc', h1, h2⟩

/-- C6: the staleness predicate is true iff no canonical entry exists or the
stored fingerprint differs; after `processFile` stores an entry with
fingerprint `sha`, `isStale` is false at `sha`, true at every other
fingerprint, and selecting the file again with the unchanged fingerprint
performs no second generation. -/
theorem C6_staleness (st : AppState) (name path sha content now : String)
    (gen fetch2 gen2 : CallOutcome) (now2 : String) :
    (∀ sha2, isStale st path sha2 = true ↔
      (lookupRec st.docState path = none ∨
        ∃ d, lookupRec st.docState path = some d ∧ d.sourceSha ≠ sha2)) ∧
    isStale (processFile st name path sha (CallOutcome.returned content) gen now) path sha
      = false ∧
    (∀ sha2, sha2 ≠ sha →
      isStale (processFile st name path sha (CallOutcome.returned content) gen now) path sha2
        = true) ∧
    (handleFileSelect (processFile st name path sha (CallOutcome.returned content) gen now)
      name path sha fetch2 gen2 now2).2 = false := by
  have hlook : lookupRec (processFile st name path sha (CallOutcome.returned content)
      gen now).docState path =
      some (assembleDoc (generateDocumentation name content gen) sha now) := by
    rw [processFile]
    exact lookupRec_upsert_self _ _ _
  have hfalse : isStale (processFile st name path sha (CallOutcome.returned content) gen now)
      path sha = false := by
    rw [isStale, hlook]
    simp [assembleDoc]
  refine ⟨?_, hfalse, ?_, ?_⟩
  · intro sha2
    cases hl : lookupRec st.docState path with
    | none => simp [isStale, hl]
    | some d =>
      rw [isStale, hl]
      dsimp only
      constructor
      · intro hb
        exact Or.inr ⟨d, rfl, by simpa using hb⟩
      · rintro (hnone | ⟨d', hd', hne⟩)
        · cases hnone
        · injection hd' with he
          subst he
          simpa using hne
  · intro sha2 hne
    rw [isStale, hlook]
    simp [assembleDoc]
    exact fun he => hne he.symm
  · rw [handleFileSelect, hfalse]
    simp

/-- C6 (witness): after a concrete generation for path "p" with fingerprint
"sha1", the entry is fresh at "sha1" and stale at "sha2". -/
theorem C6_witness :
    isStale (processFile emptyAppState "f.ts" "p" "sha1" (CallOutcome.returned "x")
      (CallOutcome.threw none) "t0") "p" "sha1" = false ∧
    isStale (processFile emptyAppState "f.ts" "p" "sha1" (CallOutcome.returned "x")
      (CallOutcome.threw none) "t0") "p" "sha2" = true := by
  have h := C6_staleness emptyAppState "f.ts" "p" "sha1" "x" "t0" (CallOutcome.threw none)
    (CallOutcome.threw none) (CallOutcome.threw none) "t1"
  exact ⟨h.2.1, h.2.2.1 "sha2" (by decide)⟩

/-- C7: after `handleVerify`'s state update with record `r` for path `p`,
the canonical entry's verification becomes `r`, and every pre-existing
translation-cache entry for `p` has verification `r` while its translated
summary and sections (hence titles, contents and code examples) are
unchanged. -/
theorem C7_verification_fanout (st : AppState) (path lang : String)
    (r : VerificationResult) (d t : GeneratedDoc)
    (hd : lookupRec st.docState path = some d)
    (ht : lookupRec st.translationCache (path ++ ":" ++ lang) = some t) :
    lookupRec (handleVerifyUpdate st path r).docState path =
      some { d with verification := r } ∧
    ∃ t', lookupRec (handleVerifyUpdate st path r).translationCache (path ++ ":" ++ lang) =
      some t' ∧ t'.verification = r ∧ t'.summary = t.summary ∧ t'.sections = t.sections := by
  constructor
  · rw [handleVerifyUpdate]
    dsimp only
    rw [hd]
    exact lookupRec_upsert_self _ _ _
  · rw [handleVerifyUpdate]
    dsimp only
    rw [lookupRec_map st.translationCache
      (fun k v => if jsStartsWith k (path ++ ":") then { v with verification := r } else v),
      ht]
    dsimp [Option.map]
    rw [if_pos (jsStartsWith_key path lang)]
    exact ⟨{ t with verification := r }, rfl, rfl, rfl, rfl⟩

/-- C7 (witness): the theorem at a concrete state with an overlay for
"p:es" and the record produced by a thrown oracle call. -/
theorem C7_witness :
    ∃ t', lookupRec (handleVerifyUpdate sampleState "p"
      (verifyCodeExample (CallOutcome.threw none))).translationCache ("p" ++ ":" ++ "es") =
      some t' ∧ t'.verification = verifyCodeExample (CallOutcome.threw none) ∧
      t'.summary = sampleDoc.summary ∧ t'.sections = sampleDoc.sections :=
  (C7_verification_fanout sampleState "p" "es" (verifyCodeExample (CallOutcome.threw none))
    sampleDoc sampleDoc rfl rfl).2

/-- C8: along every sequence of operations (select/generate, translate,
verify, apply-fix) from the empty state, with colon-free paths, every
translation-cache entry's sections mirror the canonical entry's code
examples section by section: translation merging copies code examples
unchanged, and the operations that replace the canonical entry or change its
code examples evict all overlays for the path. -/
theorem C8_code_mirror_invariant (ops : List Op)
    (hops : ∀ op ∈ ops, noColon op.path = true) :
    codeMirrorInv (ops.foldl step emptyAppState) := by
  refine foldl_preserves_codeMirrorInv ops emptyAppState ?_ hops
  intro p lang t hp hlook
  simp [emptyAppState, lookupRec] at hlook

/-- C8 (witness): the invariant after a concrete generate-translate-fix
sequence. -/
theorem C8_witness :
    codeMirrorInv
      (List.foldl step emptyAppState
        [Op.select "f.ts" "p" "sha1" (CallOutcome.returned "x")
          (CallOutcome.returned "\x7b\"summary\":\"s\",\"sections\":[]\x7d") "t0",
         Op.translate "p" "es" (CallOutcome.threw none),
         Op.fix "p" "new code"]) :=
  C8_code_mirror_invariant _ (by decide)

end DocSync
